import Mathlib

/-!
Verification of the validation error-reporting layer of `pandasio`
(`pandasio/validation/errors.py`): the closed family of `Error` variants,
their `to_dict` detection rules over columns and tables, and the
`FieldValidationErrorManager` accumulator.

Columns (`pd.Series`) are embedded as ordered lists of (row index, value)
pairs; tables (`pd.DataFrame`) as ordered lists of (row index, row) pairs.
A Python raise is an `Except.error`.
-/

namespace Pandasio

/-- Scalar cell values of a column: integers, strings, booleans, or a
missing value (NaN). -/
inductive Val where
  | int (n : Int)
  | str (s : String)
  | bool (b : Bool)
  | null
deriving DecidableEq

/-- Variant-specific extra report parameters (`limit_value`, `format`,
`unique_together_fields`, `supported_extensions`). -/
inductive ExtraVal where
  | int (n : Int)
  | str (s : String)
  | strList (l : List String)
deriving DecidableEq

/-- A column: ordered (row index, value) pairs, standing for a `pd.Series`. -/
abbrev Column := List (Nat × Val)

/-- One table row: field name to value, standing for one `pd.DataFrame` row. -/
abbrev Row := List (String × Val)

/-- A table: ordered (row index, row) pairs, standing for a `pd.DataFrame`. -/
abbrev Table := List (Nat × Row)

/-- The data argument of `to_dict`: a series or a frame; `Option` covers the
Python `None` argument. -/
inductive Data where
  | col (c : Column)
  | table (t : Table)
deriving DecidableEq

/-- The serialized violation report built by `Error.form_response`: the
`reason` code, the ordered violating `indexes`, and the extra keys. -/
structure Report where
  reason : String
  indexes : List Nat
  extra : List (String × ExtraVal)
deriving DecidableEq

/-- Elementwise `v < limit` as pandas evaluates it on a column: numbers
compare numerically, booleans count as 0 or 1, NaN compares false, and a
string against a number raises `TypeError`. -/
def ltVal : Val → Int → Except String Bool
  | .int n, m => .ok (decide (n < m))
  | .bool b, m => .ok (decide ((if b then (1 : Int) else 0) < m))
  | .null, _ => .ok false
  | .str _, _ => .error "TypeError"

/-- Elementwise `v > limit`, symmetric to `ltVal`. -/
def gtVal : Val → Int → Except String Bool
  | .int n, m => .ok (decide (m < n))
  | .bool b, m => .ok (decide (m < (if b then (1 : Int) else 0)))
  | .null, _ => .ok false
  | .str _, _ => .error "TypeError"

/-- `s.str.len() < limit`: a string value gives its length, any other value
gives NaN so the comparison is false. -/
def strLenLt (v : Val) (m : Int) : Bool :=
  match v with
  | .str s => decide ((s.length : Int) < m)
  | _ => false

/-- `s.str.len() > limit`, symmetric to `strLenLt`. -/
def strLenGt (v : Val) (m : Int) : Bool :=
  match v with
  | .str s => decide (m < (s.length : Int))
  | _ => false

/-- Python `str(x)` on a cell value; `str` of NaN is the text `nan`. -/
def pyStr : Val → String
  | .int n => toString n
  | .str s => s
  | .bool b => if b then "True" else "False"
  | .null => "nan"

/-- Python `x.lstrip("-")`: drop every leading minus sign. -/
def lstripMinus (s : String) : String :=
  String.mk (s.toList.dropWhile (fun ch => ch == '-'))

/-- Python `t.isnumeric()` on the ASCII digit strings this development uses:
nonempty and composed entirely of digits. (Python additionally accepts
non-ASCII numeric code points, which no value here contains.) -/
def pyIsNumeric (t : String) : Bool :=
  !t.isEmpty && t.toList.all Char.isDigit

/-- Python `s.isupper()`: at least one cased character and every cased
character uppercase (the cased characters occurring here are ASCII
letters). -/
def pyIsUpper (s : String) : Bool :=
  s.toList.any Char.isAlpha && s.toList.all (fun c => !c.isAlpha || c.isUpper)

/-- The closed family of concrete `Error` variants, each carrying its
dataclass fields. -/
inductive ErrorKind where
  | nonNumericValue
  | fieldRequired
  | nullNotAllowed
  | minValue (minV : Int)
  | maxValue (maxV : Int)
  | minLength (minV : Int)
  | maxLength (maxV : Int)
  | nonUniqueTogether (fields : List String)
  | incorrectDateFormat (format : String)
  | incorrectDateTimeFormat (format : String)
  | imageFormatNotSupported (supportedExtensions : List String)
  | identifierNotFound
  | blankNotAllowed
deriving DecidableEq

/-- The class constant `CODE` of each concrete variant. -/
def CODE : ErrorKind → String
  | .nonNumericValue => "NON_NUMERIC_VALUE"
  | .fieldRequired => "FIELD_REQUIRED"
  | .nullNotAllowed => "NULL_NOT_ALLOWED"
  | .minValue _ => "MIN_VALUE"
  | .maxValue _ => "MAX_VALUE"
  | .minLength _ => "MIN_LENGTH_VALUE"
  | .maxLength _ => "MAX_LENGTH_VALUE"
  | .nonUniqueTogether _ => "NON_UNIQUE_TOGETHER"
  | .incorrectDateFormat _ => "INCORRECT_DATE_FORMAT"
  | .incorrectDateTimeFormat _ => "INCORRECT_DATETIME_FORMAT"
  | .imageFormatNotSupported _ => "IMAGE_FORMAT_NOT_SUPPORTED"
  | .identifierNotFound => "IDENTIFIER_NOT_FOUND"
  | .blankNotAllowed => "BLANK_NOT_ALLOWED"

/-- `Error.__post_init__`: assert that `CODE` is set and then that it is
uppercase; a failed assertion raises. -/
def postInit : Option String → Except String Unit
  | none => .error "`CODE` cannot be None."
  | some c =>
      if pyIsUpper c then .ok () else .error "The `CODE` should be uppercase."

/-- The codes of the thirteen shipped concrete variants, in source order. -/
def codes : List String :=
  ["NON_NUMERIC_VALUE", "FIELD_REQUIRED", "NULL_NOT_ALLOWED", "MIN_VALUE",
   "MAX_VALUE", "MIN_LENGTH_VALUE", "MAX_LENGTH_VALUE", "NON_UNIQUE_TOGETHER",
   "INCORRECT_DATE_FORMAT", "INCORRECT_DATETIME_FORMAT",
   "IMAGE_FORMAT_NOT_SUPPORTED", "IDENTIFIER_NOT_FOUND", "BLANK_NOT_ALLOWED"]

/-- Indexes selected by an elementwise mask whose evaluation can raise
(`s.loc[mask]`): collect the marked indexes in column order, propagating a
raise from any element. -/
def cmpIndexes (p : Val → Except String Bool) : Column → Except String (List Nat)
  | [] => .ok []
  | (i, v) :: rest => do
      let b ← p v
      let tail ← cmpIndexes p rest
      pure (if b then i :: tail else tail)

/-- `NonNumericValueError` selection: mask by failed `isnumeric` on the
minus-stripped text of each value, then `.dropna()`. -/
def nonNumericIndexes (c : Column) : List Nat :=
  (((c.filter fun p => !pyIsNumeric (lstripMinus (pyStr p.2))).filter
    fun p => !(p.2 == Val.null)).map Prod.fst)

/-- `NullNotAllowedError` selection: `s[s.isnull()]`. -/
def nullIndexes (c : Column) : List Nat :=
  ((c.filter fun p => p.2 == Val.null).map Prod.fst)

/-- `BlankNotAllowed` selection: `s.loc[s == ""]`. -/
def blankIndexes (c : Column) : List Nat :=
  ((c.filter fun p => p.2 == Val.str "").map Prod.fst)

/-- `MinLengthError` selection: `s.loc[s.str.len() < min_value]`. -/
def strLenLtIndexes (m : Int) (c : Column) : List Nat :=
  ((c.filter fun p => strLenLt p.2 m).map Prod.fst)

/-- `MaxLengthError` selection: `s.loc[s.str.len() > max_value]`. -/
def strLenGtIndexes (m : Int) (c : Column) : List Nat :=
  ((c.filter fun p => strLenGt p.2 m).map Prod.fst)

/-- `IncorrectDateFormatError` selection: coerce every value with
`pd.to_datetime(s, format, errors="coerce")` — abstracted by the predicate
`parse fmt v`, true when the coercion succeeds — and keep the rows left as
`NaT`. -/
def dateFailIndexes (parse : String → Val → Bool) (fmt : String) (c : Column) :
    List Nat :=
  ((c.filter fun p => !parse fmt p.2).map Prod.fst)

/-- `ImageFormatNotSupportedError` selection: `s[~s]`; `~` requires boolean
values and raises otherwise. -/
def notSupportedIndexes (c : Column) : Except String (List Nat) :=
  cmpIndexes (fun v => match v with | .bool b => .ok !b | _ => .error "TypeError") c

/-- Projection of one row to the `subset` fields (`none` when a field is
absent from the row). -/
def projRow (fields : List String) (r : Row) : List (Option Val) :=
  fields.map fun f => ((r.find? fun p => p.1 == f).map Prod.snd)

/-- `DataFrame.duplicated(subset=fields)` with the default `keep="first"`,
already composed with the boolean indexing: mark a row exactly when its
projection occurred among the already-processed prefix, carried in `seen`. -/
def duplicatedGo (fields : List String) : List (List (Option Val)) → Table → List Nat
  | _, [] => []
  | seen, (i, r) :: rest =>
      if seen.contains (projRow fields r) then
        i :: duplicatedGo fields (seen ++ [projRow fields r]) rest
      else
        duplicatedGo fields (seen ++ [projRow fields r]) rest

/-- `s[s.duplicated(subset=fields)]` started from an empty prefix. -/
def duplicatedIndexes (fields : List String) (t : Table) : List Nat :=
  duplicatedGo fields [] t

/-- Spec reading of NON_UNIQUE_TOGETHER: a row is reported exactly when some
earlier row of the table agrees with it on the listed fields (so the first
occurrence of each combination is excluded). -/
def specDupIndexes (fields : List String) : Table → Table → List Nat
  | _, [] => []
  | earlier, (i, r) :: rest =>
      (if earlier.any fun p => projRow fields r == projRow fields p.2 then [i]
       else [])
        ++ specDupIndexes fields (earlier ++ [(i, r)]) rest

/-- Extract the series argument; a missing or frame-shaped argument makes the
series-indexing of the variant raise. -/
def getCol : Option Data → Except String Column
  | some (.col c) => .ok c
  | some (.table _) => .error "TypeError"
  | none => .error "AttributeError"

/-- Extract the frame argument; a missing or series-shaped argument makes
`duplicated(subset=...)` raise. -/
def getTable : Option Data → Except String Table
  | some (.table t) => .ok t
  | some (.col _) => .error "TypeError"
  | none => .error "AttributeError"

/-- `to_dict` of each variant, parameterized by the external `pd.to_datetime`
coercion predicate `parse`. Every report is built by `form_response`:
`reason` is the variant's `CODE`, `indexes` the selected row indexes in
column order, and the extra keys follow the variant. -/
def toDict (parse : String → Val → Bool) (e : ErrorKind) (d : Option Data) :
    Except String Report :=
  match e with
  | .nonNumericValue => do
      let c ← getCol d
      pure ⟨"NON_NUMERIC_VALUE", nonNumericIndexes c, []⟩
  | .fieldRequired => .ok ⟨"FIELD_REQUIRED", [], []⟩
  | .nullNotAllowed => do
      let c ← getCol d
      pure ⟨"NULL_NOT_ALLOWED", nullIndexes c, []⟩
  | .minValue m => do
      let c ← getCol d
      let idx ← cmpIndexes (fun v => ltVal v m) c
      pure ⟨"MIN_VALUE", idx, [("limit_value", .int m)]⟩
  | .maxValue m => do
      let c ← getCol d
      let idx ← cmpIndexes (fun v => gtVal v m) c
      pure ⟨"MAX_VALUE", idx, [("limit_value", .int m)]⟩
  | .minLength m => do
      let c ← getCol d
      pure ⟨"MIN_LENGTH_VALUE", strLenLtIndexes m c, [("limit_value", .int m)]⟩
  | .maxLength m => do
      let c ← getCol d
      pure ⟨"MAX_LENGTH_VALUE", strLenGtIndexes m c, [("limit_value", .int m)]⟩
  | .nonUniqueTogether fields => do
      let t ← getTable d
      pure ⟨"NON_UNIQUE_TOGETHER", duplicatedIndexes fields t,
        [("unique_together_fields", .strList fields)]⟩
  | .incorrectDateFormat fmt => do
      let c ← getCol d
      pure ⟨"INCORRECT_DATE_FORMAT", dateFailIndexes parse fmt c,
        [("format", .str fmt)]⟩
  | .incorrectDateTimeFormat fmt => do
      let c ← getCol d
      pure ⟨"INCORRECT_DATETIME_FORMAT", dateFailIndexes parse fmt c,
        [("format", .str fmt)]⟩
  | .imageFormatNotSupported exts => do
      let c ← getCol d
      let idx ← notSupportedIndexes c
      pure ⟨"IMAGE_FORMAT_NOT_SUPPORTED", idx,
        [("supported_extensions", .strList exts)]⟩
  | .identifierNotFound => do
      let c ← getCol d
      pure ⟨"IDENTIFIER_NOT_FOUND", c.map Prod.fst, []⟩
  | .blankNotAllowed => do
      let c ← getCol d
      pure ⟨"BLANK_NOT_ALLOWED", blankIndexes c, []⟩

/-- The `errors` list of a `FieldValidationErrorManager`. -/
abbrev Manager := List Report

/-- `FieldValidationErrorManager.log_error`: serialize against the data and
append the resulting report; a raise inside `to_dict` appends nothing. -/
def logError (parse : String → Val → Bool) (m : Manager) (e : ErrorKind)
    (d : Option Data) : Except String Manager :=
  (toDict parse e d).map fun r => m ++ [r]

/-- Modelled from the spec: the constraint descriptors of the `validators`
module (absent from the sources; only its `BaseValidator` subclasses are
dispatched on in `log_validator_error`). Each recognized kind carries its
`limit_value` parameter; `other` stands for any unrecognized validator
class, carrying its class name. -/
inductive Validator where
  | minValue (limitValue : Int)
  | maxValue (limitValue : Int)
  | minLength (limitValue : Int)
  | maxLength (limitValue : Int)
  | uniqueTogether (limitValue : List String)
  | other (className : String)
deriving DecidableEq

/-- `FieldValidationErrorManager.log_validator_error`: dispatch on the
validator class, build the matching error variant from the validator's
`limit_value`, serialize it against the same data and append the report;
an unrecognized class raises `NotImplementedError` and appends nothing. -/
def logValidatorError (parse : String → Val → Bool) (m : Manager)
    (v : Validator) (d : Option Data) : Except String Manager :=
  match v with
  | .minValue l => (toDict parse (.minValue l) d).map fun r => m ++ [r]
  | .maxValue l => (toDict parse (.maxValue l) d).map fun r => m ++ [r]
  | .minLength l => (toDict parse (.minLength l) d).map fun r => m ++ [r]
  | .maxLength l => (toDict parse (.maxLength l) d).map fun r => m ++ [r]
  | .uniqueTogether l =>
      (toDict parse (.nonUniqueTogether l) d).map fun r => m ++ [r]
  | .other name =>
      .error ("Support for `" ++ name ++ "` validator not implemented yet.")

/-- The reports a sequence of `log_error` calls would serialize, in call
order; a raise in any call propagates. -/
def reportsOf (parse : String → Val → Bool) :
    List (ErrorKind × Option Data) → Except String (List Report)
  | [] => .ok []
  | (e, d) :: rest => do
      let r ← toDict parse e d
      let rs ← reportsOf parse rest
      pure (r :: rs)

/-- Run a sequence of `log_error` calls against one manager. -/
def runCalls (parse : String → Val → Bool) :
    Manager → List (ErrorKind × Option Data) → Except String Manager
  | m, [] => .ok m
  | m, (e, d) :: rest => do
      let m2 ← logError parse m e d
      runCalls parse m2 rest

/-- Embed a purely numeric column. -/
def intCol (c : List (Nat × Int)) : Column :=
  c.map fun p => (p.1, Val.int p.2)

/-- Embed a purely textual column. -/
def strCol (c : List (Nat × String)) : Column :=
  c.map fun p => (p.1, Val.str p.2)

/-- A numeric-or-missing cell (`none` is NaN). -/
def optIntVal : Option Int → Val
  | some n => Val.int n
  | none => Val.null

/-- Embed a numeric column with missing values (`none` is NaN). -/
def optIntCol (c : List (Nat × Option Int)) : Column :=
  c.map fun p => (p.1, optIntVal p.2)

/-- A degenerate coercion predicate used to instantiate concrete scenarios
whose variant never consults it. -/
def noParse : String → Val → Bool := fun _ _ => false

/-- The two-field scenario table with rows (a=1, b=2), (a=1, b=2),
(a=1, b=3). -/
def exampleTable : Table :=
  [(0, [("a", Val.int 1), ("b", Val.int 2)]),
   (1, [("a", Val.int 1), ("b", Val.int 2)]),
   (2, [("a", Val.int 1), ("b", Val.int 3)])]

/-- The boolean a non-raising `ltVal` comparison evaluates to. -/
def ltValB (m : Int) : Val → Bool
  | .int n => decide (n < m)
  | .bool b => decide ((if b then (1 : Int) else 0) < m)
  | _ => false

/-- The boolean a non-raising `gtVal` comparison evaluates to. -/
def gtValB (m : Int) : Val → Bool
  | .int n => decide (m < n)
  | .bool b => decide (m < (if b then (1 : Int) else 0))
  | _ => false

theorem cmpIndexes_ok (p : Val → Except String Bool) (q : Val → Bool)
    (c : Column) (h : ∀ iv ∈ c, p iv.2 = .ok (q iv.2)) :
    cmpIndexes p c = .ok ((c.filter fun iv => q iv.2).map Prod.fst) := by
  induction c with
  | nil => rfl
  | cons hd tl ih =>
      obtain ⟨i, v⟩ := hd
      have hh : p v = .ok (q v) := h (i, v) (List.mem_cons_self _ _)
      have ht := ih fun iv hm => h iv (List.mem_cons_of_mem _ hm)
      simp only [cmpIndexes, hh, ht, List.filter_cons, Bind.bind, Except.bind,
        pure, Except.pure]
      by_cases hq : q v
      · simp [hq]
      · simp [hq]

theorem filter_map_emb {α : Type} (emb : α → Val) (q : Val → Bool)
    (c : List (Nat × α)) :
    (((c.map fun p => (p.1, emb p.2)).filter fun p => q p.2).map Prod.fst)
      = ((c.filter fun p => q (emb p.2)).map Prod.fst) := by
  induction c with
  | nil => rfl
  | cons hd tl ih =>
      simp only [List.map_cons, List.filter_cons]
      by_cases hq : q (emb hd.2)
      · simp [hq, ih]
      · simp [hq, ih]

/-- C1: for every numeric column and limit, `MinValueError(min_value).to_dict`
reports exactly the indexes whose value is below `min_value` together with
`limit_value = min_value`, and symmetrically `MaxValueError` the indexes
above `max_value`; for every textual column, `MinLengthError` reports
exactly the indexes whose text length is below `min_value` and
`MaxLengthError` those above `max_value`; each index list keeps the
column's original row order. -/
theorem minMaxLength_report_exact (parse : String → Val → Bool) (m : Int) :
    (∀ c : List (Nat × Int),
      toDict parse (.minValue m) (some (.col (intCol c)))
        = .ok ⟨"MIN_VALUE", ((c.filter fun p => decide (p.2 < m)).map Prod.fst),
            [("limit_value", .int m)]⟩) ∧
    (∀ c : List (Nat × Int),
      toDict parse (.maxValue m) (some (.col (intCol c)))
        = .ok ⟨"MAX_VALUE", ((c.filter fun p => decide (m < p.2)).map Prod.fst),
            [("limit_value", .int m)]⟩) ∧
    (∀ c : List (Nat × String),
      toDict parse (.minLength m) (some (.col (strCol c)))
        = .ok ⟨"MIN_LENGTH_VALUE",
            ((c.filter fun p => decide ((p.2.length : Int) < m)).map Prod.fst),
            [("limit_value", .int m)]⟩) ∧
    (∀ c : List (Nat × String),
      toDict parse (.maxLength m) (some (.col (strCol c)))
        = .ok ⟨"MAX_LENGTH_VALUE",
            ((c.filter fun p => decide (m < (p.2.length : Int))).map Prod.fst),
            [("limit_value", .int m)]⟩) := by
  refine ⟨fun c => ?_, fun c => ?_, fun c => ?_, fun c => ?_⟩
  · have hc : cmpIndexes (fun v => ltVal v m) (intCol c)
        = .ok (((intCol c).filter fun iv => ltValB m iv.2).map Prod.fst) := by
      refine cmpIndexes_ok _ _ _ fun iv hm => ?_
      obtain ⟨p, _, hp⟩ := List.mem_map.mp hm
      cases hp
      rfl
    simp only [toDict, getCol, Bind.bind, Except.bind, hc, pure, Except.pure]
    rw [show (((intCol c).filter fun iv => ltValB m iv.2).map Prod.fst)
        = ((c.filter fun p => decide (p.2 < m)).map Prod.fst) from
      filter_map_emb Val.int (ltValB m) c]
  · have hc : cmpIndexes (fun v => gtVal v m) (intCol c)
        = .ok (((intCol c).filter fun iv => gtValB m iv.2).map Prod.fst) := by
      refine cmpIndexes_ok _ _ _ fun iv hm => ?_
      obtain ⟨p, _, hp⟩ := List.mem_map.mp hm
      cases hp
      rfl
    simp only [toDict, getCol, Bind.bind, Except.bind, hc, pure, Except.pure]
    rw [show (((intCol c).filter fun iv => gtValB m iv.2).map Prod.fst)
        = ((c.filter fun p => decide (m < p.2)).map Prod.fst) from
      filter_map_emb Val.int (gtValB m) c]
  · simp only [toDict, getCol, Bind.bind, Except.bind, pure, Except.pure,
      strLenLtIndexes, strCol]
    rw [filter_map_emb Val.str (fun v => strLenLt v m) c]
    simp only [strLenLt]
  · simp only [toDict, getCol, Bind.bind, Except.bind, pure, Except.pure,
      strLenGtIndexes, strCol]
    rw [filter_map_emb Val.str (fun v => strLenGt v m) c]
    simp only [strLenGt]

/-- C9: `FieldRequiredError.to_dict` yields the report with reason
FIELD_REQUIRED and empty indexes for every data argument, the absent
argument included; the argument is never evaluated. -/
theorem fieldRequired_empty (parse : String → Val → Bool) (d : Option Data) :
    toDict parse .fieldRequired d = .ok ⟨"FIELD_REQUIRED", [], []⟩ := rfl

/-- C2: for each of the five recognized validator kinds,
`log_validator_error` appends exactly the report the corresponding error
variant, built from the validator's `limit_value`, produces on the same
data — the same effect as `log_error` with that variant — while an
unrecognized validator kind raises `NotImplementedError` and appends
nothing. -/
theorem logValidatorError_dispatch (parse : String → Val → Bool) (m : Manager)
    (d : Option Data) :
    (∀ l : Int, logValidatorError parse m (.minValue l) d
      = logError parse m (.minValue l) d) ∧
    (∀ l : Int, logValidatorError parse m (.maxValue l) d
      = logError parse m (.maxValue l) d) ∧
    (∀ l : Int, logValidatorError parse m (.minLength l) d
      = logError parse m (.minLength l) d) ∧
    (∀ l : Int, logValidatorError parse m (.maxLength l) d
      = logError parse m (.maxLength l) d) ∧
    (∀ fs : List String, logValidatorError parse m (.uniqueTogether fs) d
      = logError parse m (.nonUniqueTogether fs) d) ∧
    (∀ name : String, logValidatorError parse m (.other name) d
      = .error ("Support for `" ++ name ++ "` validator not implemented yet.")) :=
  ⟨fun _ => rfl, fun _ => rfl, fun _ => rfl, fun _ => rfl, fun _ => rfl,
   fun _ => rfl⟩

/-- C5: every shipped concrete variant's `CODE` passes both
construction-time assertions and is non-empty; the thirteen shipped codes
are pairwise distinct; an unset `CODE` fails the first assertion and a
non-uppercase `CODE` fails the second. -/
theorem code_construction_invariant :
    (∀ e : ErrorKind, postInit (some (CODE e)) = .ok ()
      ∧ CODE e ≠ "" ∧ pyIsUpper (CODE e) = true ∧ CODE e ∈ codes) ∧
    codes.Nodup ∧ codes.length = 13 ∧
    postInit none = .error "`CODE` cannot be None." ∧
    (∀ s : String, pyIsUpper s = false →
      postInit (some s) = .error "The `CODE` should be uppercase.") := by
  refine ⟨fun e => ?_, by decide, by decide, rfl, fun s hs => ?_⟩
  · cases e <;>
      exact ⟨rfl, by simp only [CODE]; decide, by simp only [CODE]; decide,
        by simp only [CODE]; decide⟩
  · simp [postInit, hs]

/-- C5 witness: a lowercase code fails the uppercase assertion. -/
theorem code_construction_invariant_witness :
    postInit (some "min_value") = .error "The `CODE` should be uppercase." :=
  code_construction_invariant.2.2.2.2 "min_value" rfl

/-- C6: running any sequence of `log_error` calls appends exactly one
serialized report per call, in call order, leaving every existing entry
untouched as a prefix; the number of accumulated reports equals the number
of calls. -/
theorem logError_append_order (parse : String → Val → Bool) (m : Manager)
    (calls : List (ErrorKind × Option Data)) :
    runCalls parse m calls
      = (reportsOf parse calls).map (fun rs => m ++ rs) ∧
    (∀ rs, reportsOf parse calls = .ok rs → rs.length = calls.length) := by
  constructor
  · induction calls generalizing m with
    | nil => simp [runCalls, reportsOf, Except.map]
    | cons hd tl ih =>
        obtain ⟨e, d⟩ := hd
        simp only [runCalls, reportsOf, logError, Bind.bind, Except.bind]
        cases htd : toDict parse e d with
        | error s => simp [Except.map]
        | ok r =>
            simp only [Except.map]
            rw [ih (m ++ [r])]
            cases hrs : reportsOf parse tl with
            | error s => simp [Except.map]
            | ok rs => simp [Except.map, pure, Except.pure, List.append_assoc]
  · induction calls with
    | nil =>
        intro rs h
        simp only [reportsOf] at h
        cases h
        rfl
    | cons hd tl ih =>
        intro rs h
        obtain ⟨e, d⟩ := hd
        simp only [reportsOf, Bind.bind, Except.bind] at h
        cases htd : toDict parse e d with
        | error s => rw [htd] at h; cases h
        | ok r =>
            rw [htd] at h
            cases hrs : reportsOf parse tl with
            | error s => rw [hrs] at h; cases h
            | ok rs2 =>
                rw [hrs] at h
                simp only [pure, Except.pure] at h
                cases h
                simp [ih rs2 hrs]

/-- C6 witness: one call accumulates one report. -/
theorem logError_append_order_witness :
    ([(⟨"FIELD_REQUIRED", [], []⟩ : Report)]).length
      = ([((ErrorKind.fieldRequired : ErrorKind), (none : Option Data))]).length :=
  (logError_append_order noParse [] [(.fieldRequired, none)]).2
    [⟨"FIELD_REQUIRED", [], []⟩] rfl

/-- C3 counterexample: on the column holding `--3` and a null, the code
reports no index at all, although `--3` stripped of one leading minus sign
is `-3`, which is not composed entirely of digits, and the null value's
text `nan` is not composed of digits either — `lstrip` removes every
leading minus sign and `.dropna()` removes the null rows, so the claim's
predicate selects rows the code does not report. -/
theorem nonNumeric_lstrip_counterexample :
    toDict noParse .nonNumericValue
        (some (.col [(0, Val.str "--3"), (1, Val.null)]))
      = .ok ⟨"NON_NUMERIC_VALUE", [], []⟩ ∧
    (("--3".drop 1).toList.all Char.isDigit) = false ∧
    ("nan".toList.all Char.isDigit) = false :=
  ⟨rfl, by decide, by decide⟩

/-- C3 amended: `NonNumericValueError.to_dict` reports exactly the non-null
rows whose value, as text, stripped of every leading minus sign, is not a
nonempty string of digits, in original row order; in particular the column
holding `5`, `abc`, `-3` at indexes 0, 1, 2 yields exactly the indexes
`[1]`. -/
theorem nonNumeric_report_amended (parse : String → Val → Bool) (c : Column) :
    toDict parse .nonNumericValue (some (.col c))
      = .ok ⟨"NON_NUMERIC_VALUE",
          ((c.filter fun p => !(p.2 == Val.null)
              && !pyIsNumeric (String.mk
                   ((pyStr p.2).toList.dropWhile fun ch => ch == '-'))).map
            Prod.fst), []⟩ ∧
    toDict parse .nonNumericValue
        (some (.col [(0, Val.str "5"), (1, Val.str "abc"), (2, Val.str "-3")]))
      = .ok ⟨"NON_NUMERIC_VALUE", [1], []⟩ := by
  constructor
  · simp only [toDict, getCol, Bind.bind, Except.bind, pure, Except.pure,
      nonNumericIndexes, lstripMinus]
    rw [List.filter_filter]
  · rfl

/-- C10: every index reported by `NonNumericValueError.to_dict` comes from a
non-null row whose minus-stripped text fails `isnumeric`: the trailing
`.dropna()` keeps null rows out of the NON_NUMERIC_VALUE selection even
though the text of a missing value is not composed of digits. -/
theorem nonNumeric_excludes_null (parse : String → Val → Bool) (c : Column)
    (r : Report) (i : Nat)
    (hr : toDict parse .nonNumericValue (some (.col c)) = .ok r)
    (hi : i ∈ r.indexes) :
    ∃ v, (i, v) ∈ c ∧ v ≠ Val.null
      ∧ pyIsNumeric (lstripMinus (pyStr v)) = false := by
  have hr2 : r = ⟨"NON_NUMERIC_VALUE", nonNumericIndexes c, []⟩ := by
    have hh : toDict parse .nonNumericValue (some (.col c))
        = .ok ⟨"NON_NUMERIC_VALUE", nonNumericIndexes c, []⟩ := rfl
    rw [hh] at hr
    exact (Except.ok.inj hr).symm
  subst hr2
  simp only [nonNumericIndexes] at hi
  obtain ⟨p, hpmem, hpi⟩ := List.mem_map.mp hi
  have h1 := List.mem_filter.mp hpmem
  have h2 := List.mem_filter.mp h1.1
  refine ⟨p.2, ?_, ?_, ?_⟩
  · rw [← hpi]
    exact (Prod.mk.eta (p := p)) ▸ h2.1
  · simpa using h1.2
  · simpa using h2.2

/-- C10 witness at a concrete column with one null row. -/
theorem nonNumeric_excludes_null_witness :
    ∃ v, ((0 : Nat), v) ∈ ([(0, Val.str "abc"), (1, Val.null)] : Column)
      ∧ v ≠ Val.null ∧ pyIsNumeric (lstripMinus (pyStr v)) = false :=
  nonNumeric_excludes_null noParse [(0, Val.str "abc"), (1, Val.null)]
    ⟨"NON_NUMERIC_VALUE", [0], []⟩ 0 rfl (by decide)

/-- C4: detection-rule evaluation does not raise on well-formed data: on a
numeric column with missing values, `MinValueError` and `MaxValueError`
succeed and the incomparable (missing) rows are excluded from the report
rather than failing the whole column, and every other variant's `to_dict`
succeeds on its well-formed input shape. -/
theorem toDict_total_on_wellformed (parse : String → Val → Bool) (m : Int) :
    (∀ c : List (Nat × Option Int),
      toDict parse (.minValue m) (some (.col (optIntCol c)))
        = .ok ⟨"MIN_VALUE",
            ((c.filter fun p => match p.2 with
              | some n => decide (n < m)
              | none => false).map Prod.fst),
            [("limit_value", .int m)]⟩) ∧
    (∀ c : List (Nat × Option Int),
      toDict parse (.maxValue m) (some (.col (optIntCol c)))
        = .ok ⟨"MAX_VALUE",
            ((c.filter fun p => match p.2 with
              | some n => decide (m < n)
              | none => false).map Prod.fst),
            [("limit_value", .int m)]⟩) ∧
    (∀ (c : Column) (fmt : String) (exts fields : List String) (t : Table)
        (bc : List (Nat × Bool)),
      (∃ r, toDict parse .nonNumericValue (some (.col c)) = .ok r) ∧
      (∃ r, toDict parse .fieldRequired (some (.col c)) = .ok r) ∧
      (∃ r, toDict parse .nullNotAllowed (some (.col c)) = .ok r) ∧
      (∃ r, toDict parse (.minLength m) (some (.col c)) = .ok r) ∧
      (∃ r, toDict parse (.maxLength m) (some (.col c)) = .ok r) ∧
      (∃ r, toDict parse (.nonUniqueTogether fields) (some (.table t)) = .ok r) ∧
      (∃ r, toDict parse (.incorrectDateFormat fmt) (some (.col c)) = .ok r) ∧
      (∃ r, toDict parse (.incorrectDateTimeFormat fmt) (some (.col c)) = .ok r) ∧
      (∃ r, toDict parse (.imageFormatNotSupported exts)
          (some (.col (bc.map fun p => (p.1, Val.bool p.2)))) = .ok r) ∧
      (∃ r, toDict parse .identifierNotFound (some (.col c)) = .ok r) ∧
      (∃ r, toDict parse .blankNotAllowed (some (.col c)) = .ok r)) := by
  refine ⟨fun c => ?_, fun c => ?_, fun c fmt exts fields t bc => ?_⟩
  · have hc : cmpIndexes (fun v => ltVal v m) (optIntCol c)
        = .ok (((optIntCol c).filter fun iv => ltValB m iv.2).map Prod.fst) := by
      refine cmpIndexes_ok _ _ _ fun iv hm => ?_
      obtain ⟨p, _, hp⟩ := List.mem_map.mp hm
      cases hp
      obtain ⟨j, o⟩ := p
      cases o <;> rfl
    simp only [toDict, getCol, Bind.bind, Except.bind, hc, pure, Except.pure]
    rw [show (((optIntCol c).filter fun iv => ltValB m iv.2).map Prod.fst)
        = ((c.filter fun p => ltValB m (optIntVal p.2)).map Prod.fst) from
      filter_map_emb optIntVal (ltValB m) c]
    have heq : (c.filter fun p => ltValB m (optIntVal p.2))
        = (c.filter fun p => match p.2 with
            | some n => decide (n < m)
            | none => false) := by
      refine List.filter_congr fun p _ => ?_
      obtain ⟨j, o⟩ := p
      cases o <;> rfl
    rw [heq]
  · have hc : cmpIndexes (fun v => gtVal v m) (optIntCol c)
        = .ok (((optIntCol c).filter fun iv => gtValB m iv.2).map Prod.fst) := by
      refine cmpIndexes_ok _ _ _ fun iv hm => ?_
      obtain ⟨p, _, hp⟩ := List.mem_map.mp hm
      cases hp
      obtain ⟨j, o⟩ := p
      cases o <;> rfl
    simp only [toDict, getCol, Bind.bind, Except.bind, hc, pure, Except.pure]
    rw [show (((optIntCol c).filter fun iv => gtValB m iv.2).map Prod.fst)
        = ((c.filter fun p => gtValB m (optIntVal p.2)).map Prod.fst) from
      filter_map_emb optIntVal (gtValB m) c]
    have heq : (c.filter fun p => gtValB m (optIntVal p.2))
        = (c.filter fun p => match p.2 with
            | some n => decide (m < n)
            | none => false) := by
      refine List.filter_congr fun p _ => ?_
      obtain ⟨j, o⟩ := p
      cases o <;> rfl
    rw [heq]
  · have hb : cmpIndexes
        (fun v => match v with | .bool b => .ok !b | _ => .error "TypeError")
        (bc.map fun p => (p.1, Val.bool p.2))
        = .ok ((((bc.map fun p => (p.1, Val.bool p.2)).filter
            fun iv => match iv.2 with | .bool b => !b | _ => false).map
              Prod.fst)) := by
      refine cmpIndexes_ok _
        (fun v => match v with | .bool b => !b | _ => false) _ fun iv hm => ?_
      obtain ⟨p, _, hp⟩ := List.mem_map.mp hm
      cases hp
      rfl
    refine ⟨⟨_, rfl⟩, ⟨_, rfl⟩, ⟨_, rfl⟩, ⟨_, rfl⟩, ⟨_, rfl⟩, ⟨_, rfl⟩,
      ⟨_, rfl⟩, ⟨_, rfl⟩, ?_, ⟨_, rfl⟩, ⟨_, rfl⟩⟩
    refine ⟨⟨"IMAGE_FORMAT_NOT_SUPPORTED",
      (((bc.map fun p => (p.1, Val.bool p.2)).filter
          fun iv => match iv.2 with | .bool b => !b | _ => false).map Prod.fst),
      [("supported_extensions", .strList exts)]⟩, ?_⟩
    simp only [toDict, getCol, Bind.bind, Except.bind, notSupportedIndexes, hb,
      pure, Except.pure]

/-- An elementwise containment check on projected rows, unfolded over the
embedding of the already-processed prefix. -/
theorem contains_proj (fields : List String) (k : List (Option Val)) :
    ∀ earlier : Table,
      ((earlier.map fun p => projRow fields p.2).contains k)
        = earlier.any fun p => k == projRow fields p.2 := by
  intro earlier
  induction earlier with
  | nil => rfl
  | cons hd tl ih =>
      simp only [List.map_cons, List.contains_cons, List.any_cons, ih]

/-- The pandas `duplicated`-based selection agrees with the plain
earlier-row reading, for any already-processed prefix. -/
theorem duplicatedGo_spec (fields : List String) (t : Table) :
    ∀ earlier : Table,
      duplicatedGo fields (earlier.map fun p => projRow fields p.2) t
        = specDupIndexes fields earlier t := by
  induction t with
  | nil => intro earlier; rfl
  | cons hd tl ih =>
      intro earlier
      obtain ⟨i, r⟩ := hd
      simp only [duplicatedGo, specDupIndexes, contains_proj]
      have hmap : ((earlier.map fun p => projRow fields p.2)
            ++ [projRow fields r])
          = ((earlier ++ [(i, r)]).map fun p => projRow fields p.2) := by
        simp
      by_cases h : (earlier.any fun p => projRow fields r == projRow fields p.2)
        = true
      · rw [h]
        simp only [if_true, hmap, ih (earlier ++ [(i, r)])]
        rfl
      · rw [Bool.not_eq_true] at h
        rw [h]
        simp only [if_false, hmap, ih (earlier ++ [(i, r)])]
        rfl

/-- C7: `NonUniqueTogetherError(fields).to_dict` reports exactly the rows
that agree on `fields` with some earlier row (so the first occurrence of
each combination is excluded), in original row order, together with
`unique_together_fields = fields`; on the scenario table with rows
(a=1, b=2), (a=1, b=2), (a=1, b=3) and fields `[a, b]` the indexes are
`[1]`. -/
theorem nonUniqueTogether_report (parse : String → Val → Bool)
    (fields : List String) (t : Table) :
    toDict parse (.nonUniqueTogether fields) (some (.table t))
      = .ok ⟨"NON_UNIQUE_TOGETHER", specDupIndexes fields [] t,
          [("unique_together_fields", .strList fields)]⟩ ∧
    toDict parse (.nonUniqueTogether ["a", "b"]) (some (.table exampleTable))
      = .ok ⟨"NON_UNIQUE_TOGETHER", [1],
          [("unique_together_fields", .strList ["a", "b"])]⟩ := by
  constructor
  · have h : duplicatedIndexes fields t = specDupIndexes fields [] t :=
      duplicatedGo_spec fields t []
    simp only [toDict, getTable, Bind.bind, Except.bind, pure, Except.pure,
      duplicatedIndexes] at h ⊢
    rw [h]
  · rfl

/-- C8: `IncorrectDateTimeFormatError` behaves as `IncorrectDateFormatError`
with only the reason code replaced: on every column the two variants select
the same indexes and carry the same format key, and on every argument the
datetime report is the date report with its reason overridden to
INCORRECT_DATETIME_FORMAT. -/
theorem dateTime_refines_date (parse : String → Val → Bool) (fmt : String) :
    (∀ c : Column, ∃ idx,
      toDict parse (.incorrectDateFormat fmt) (some (.col c))
        = .ok ⟨"INCORRECT_DATE_FORMAT", idx, [("format", .str fmt)]⟩ ∧
      toDict parse (.incorrectDateTimeFormat fmt) (some (.col c))
        = .ok ⟨"INCORRECT_DATETIME_FORMAT", idx, [("format", .str fmt)]⟩) ∧
    (∀ d : Option Data,
      toDict parse (.incorrectDateTimeFormat fmt) d
        = (toDict parse (.incorrectDateFormat fmt) d).map
            fun r => { r with reason := "INCORRECT_DATETIME_FORMAT" }) := by
  constructor
  · intro c
    exact ⟨dateFailIndexes parse fmt c, rfl, rfl⟩
  · intro d
    cases d with
    | none => rfl
    | some dd =>
        cases dd with
        | col c => rfl
        | table t => rfl

end Pandasio
